import Mathlib

/-!
A shallow embedding of `weasel.py` (a Dawkins-style "weasel" program): the
Levenshtein distance and the `match_to_ratio`-based fitness metrics, the
mutation/rotation operators, the `WeaselSimulator` construction and its
`generations` loop, together with proofs about them.

Conventions of the embedding:
* Python strings are `List Char`; Python floats are modelled as rationals
  (every quantity in the program is an exact integer division).
* A Python expression that raises (`ZeroDivisionError`, `IndexError`,
  `ValueError`) is modelled by `Option` (`none` = the call raises).
* `Metric` stands for an entry of `WeaselSimulator.fitness` (the looked-up
  fitness functions); the list of metrics is immutable after construction and
  is passed as an explicit parameter instead of being stored in the state.
-/

namespace Weasel

/-- Modelled from the spec (§5, Randomness): "a single seeded pseudo-random
source is owned by the Engine ... threaded through every stochastic operation
... in strict call order, to guarantee bit-for-bit reproducible runs for a
fixed seed".  This stands in for Python's `random.Random(seed)` (a Mersenne
Twister, whose code is not part of this repository); the claims depend only on
the source being a deterministic function of the seed and of the call order,
never on the concrete values drawn, so a small concrete mixing function is
used in place of MT19937. -/
structure PyRandom where
  seed : Nat
  counter : Nat
deriving DecidableEq

/-- `random.Random(seed)`: the freshly seeded generator. -/
def pyRandomInit (seed : Nat) : PyRandom := ⟨seed, 0⟩

/-- The next raw sample in `[0, 65536)` of the modelled stream. -/
def PyRandom.raw (r : PyRandom) : Nat := (r.seed * 75 + r.counter * 74 + 1) % 65536

/-- Advance the stream by one draw. -/
def PyRandom.bump (r : PyRandom) : PyRandom := ⟨r.seed, r.counter + 1⟩

/-- `rand.random()`: a rational in `[0, 1)`. -/
def PyRandom.rnd (r : PyRandom) : ℚ × PyRandom := ((r.raw : ℚ) / 65536, r.bump)

/-- `rand.randrange(n)`: an integer in `[0, n)`; raises `ValueError` (`none`)
when `n = 0`. -/
def PyRandom.randrange (r : PyRandom) (n : Nat) : Option (Nat × PyRandom) :=
  if n = 0 then none else some (r.raw % n, r.bump)

/-- `rand.randint(a, b)`: an integer in `[a, b]`, both ends included; raises
`ValueError` (`none`) when `b < a`. -/
def PyRandom.randint (r : PyRandom) (a b : Int) : Option (Int × PyRandom) :=
  if b < a then none else some (a + (r.raw % (b - a + 1).toNat : Nat), r.bump)

/-- `rand.choice(seq)`: a uniformly chosen element; raises `IndexError`
(`none`) on an empty sequence. -/
def PyRandom.choice (r : PyRandom) (l : List Char) : Option (Char × PyRandom) :=
  if h : l.length = 0 then none
  else some (l.get ⟨r.raw % l.length, Nat.mod_lt _ (Nat.pos_of_ne_zero h)⟩, r.bump)

/-! ## The Levenshtein distance, `weasel.py` lines 13–30

The Python function first swaps the arguments so that `s1` is the longer
string, returns `len(s2)` when `s1` is empty, and otherwise runs the classic
one-row dynamic program.  `rowAux` is the inner `for j, c2 in enumerate(s2)`
loop: `prev` is walked with `tail`/`headD` so that `prev.headD 0` is
`previous_row[j]` and `prev.tail.headD 0` is `previous_row[j+1]`, and `left`
is the last value appended to `current_row` (`current_row[j]`). -/

def rowAux (c1 : Char) : List Char → List Nat → Nat → List Nat
  | [], _, _ => []
  | c2 :: rest, prev, left =>
    let v := min (prev.tail.headD 0 + 1)
      (min (left + 1) (prev.headD 0 + (if c1 = c2 then 0 else 1)))
    v :: rowAux c1 rest prev.tail v

/-- Lines 21–28: the outer `for i, c1 in enumerate(s1)` loop; each iteration
turns `previous_row` into `current_row = [i+1] ++ ...`. -/
def levLoop : List Char → List Char → Nat → List Nat → List Nat
  | [], _, _, prev => prev
  | c1 :: rest, s2, i, prev => levLoop rest s2 (i + 1) ((i + 1) :: rowAux c1 s2 prev (i + 1))

/-- Lines 17–30 (the body after the argument swap): `previous_row`
starts as `xrange(len(s2) + 1)` and the result is `previous_row[-1]`. -/
def levenshteinCore (s1 s2 : List Char) : Nat :=
  if s1 = [] then s2.length
  else (levLoop s1 s2 0 (List.range (s2.length + 1))).getLastD 0

/-- Lines 13–16: `if len(s1) < len(s2): return levenshtein(s2, s1)`. -/
def levenshtein (s1 s2 : List Char) : Nat :=
  if s1.length < s2.length then levenshteinCore s2 s1 else levenshteinCore s1 s2

/-- The textbook unit-cost insert/delete/substitute edit distance, as the
spec describes it ("string edit distance (insertions, deletions,
substitutions, unit cost each)"); used as the reference point the code's
dynamic program is proved against. -/
def levSpec : List Char → List Char → Nat
  | [], ys => ys.length
  | _ :: xs, [] => xs.length + 1
  | x :: xs, y :: ys =>
    min (levSpec xs (y :: ys) + 1)
      (min (levSpec (x :: xs) ys + 1) (levSpec xs ys + (if x = y then 0 else 1)))
termination_by xs ys => xs.length + ys.length
decreasing_by all_goals (simp only [List.length_cons]; omega)

/-! ## The fitness metrics, lines 32–58 and 83–90 -/

/-- Lines 32–42: `abs(matcher(s1, s2) / max(len(s1), len(s2)) - inverse)`.
Python's true division raises `ZeroDivisionError` when both strings are empty
(`max(len(s1), len(s2)) == 0`), which is modelled by `none`; `inverse` is a
Python bool used as the number `1` or `0`. -/
def match_to_ratio (matcher : List Char → List Char → Nat) (s1 s2 : List Char)
    (inverse : Bool) : Option ℚ :=
  if max s1.length s2.length = 0 then none
  else some |(matcher s1 s2 : ℚ) / ((max s1.length s2.length : Nat) : ℚ) -
    (if inverse then 1 else 0)|

/-- Lines 44–47: `match_to_ratio(levenshtein, s1, s2)` with the default
`inverse=True`. -/
def levenshtein_fitness (s1 s2 : List Char) : Option ℚ :=
  match_to_ratio levenshtein s1 s2 true

/-- Lines 85–89: the inner `matcher` of `overlap_fitness` — the number of
positions `i < min(len(a), len(b))` with `a[i] == b[i]`. -/
def overlap_matcher : List Char → List Char → Nat
  | x :: xs, y :: ys => (if x = y then 1 else 0) + overlap_matcher xs ys
  | _, _ => 0

/-- Lines 83–90: positional-overlap fitness, `match_to_ratio(matcher, s1, s2,
False)`.  This is the default metric (`DEFAULTS.fitness = ['overlap']`). -/
def overlap_fitness (s1 s2 : List Char) : Option ℚ :=
  match_to_ratio overlap_matcher s1 s2 false

/-- Lines 92–94: `''.join([rand.choice(chars) for ignore in xrange(length)])`,
drawing the characters left to right. -/
def random_string (chars : List Char) : Nat → PyRandom → Option (List Char × PyRandom)
  | 0, r => some ([], r)
  | n + 1, r =>
    match r.choice chars with
    | none => none
    | some (c, r1) =>
      match random_string chars n r1 with
      | none => none
      | some (s, r2) => some (c :: s, r2)

/-- An entry of `WeaselSimulator.fitness`: one of the looked-up fitness
functions (each may raise, hence `Option`). -/
abbrev Metric := List Char → List Char → Option ℚ

/-- The list comprehension `[func(target, candidate) for func in self.fitness]`
of line 165: evaluates every metric, propagating a raise. -/
def metricValues : List Metric → List Char → List Char → Option (List ℚ)
  | [], _, _ => some []
  | f :: fs, t, c =>
    match f t c, metricValues fs t c with
    | some v, some vs => some (v :: vs)
    | _, _ => none

/-- Lines 164–165: `sum([...]) / len(self.fitness)` — the arithmetic mean of
the configured metrics; an empty metric list divides by zero (`none`). -/
def calcFitness (F : List Metric) (t c : List Char) : Option ℚ :=
  match metricValues F t c with
  | none => none
  | some vs => if F.length = 0 then none else some (vs.sum / (F.length : ℚ))

/-! ## The simulator state and construction, lines 96–145

`SimState` is the mutable state of a `WeaselSimulator` object.  The fields
`self.fitness`/`self.fitness_names` (immutable after construction) are passed
as the explicit `F : List Metric` parameter instead; the write-only fields
`self.initial_phrase` and `self.candidates` (assigned in `__init__`/line 143
and never read afterwards) are omitted. -/
structure SimState where
  target_phrase : List Char
  phrase_length : Nat
  characters : List Char
  num_children : Int
  mutate_chance : ℚ
  rotate_chance : ℚ
  rotate_bound : Int
  sync_rotate : Bool
  rand : PyRandom
  generation : Nat
  best_candidate : List Char
  current_fitness : ℚ
deriving DecidableEq

/-- The constructor arguments of `WeaselSimulator.__init__`, lines 115–125
(the spec's `RunConfig`).  `initial_phrase = none` is Python's `None`
default. -/
structure RunConfig where
  target_phrase : List Char
  seed : Nat
  characters : List Char
  num_children : Int
  mutate_chance : ℚ
  initial_phrase : Option (List Char)
  rotate_chance : ℚ
  rotate_bound : Int
  sync_rotate : Bool
deriving DecidableEq

/-- Lines 126–145, the body of `__init__`.  `if initial_phrase:` is Python
truthiness: both `None` and the empty string fall through to
`random_string(...)`.  The final fitness of line 145 is
`calc_fitness(target_phrase, best_candidate)`; a raise anywhere (empty
alphabet reaching `rand.choice`, or a metric raising) makes construction
fail (`none`).  No field is validated. -/
def WeaselInit (F : List Metric) (cfg : RunConfig) : Option SimState :=
  let r0 := pyRandomInit cfg.seed
  let pl := cfg.target_phrase.length
  let start : Option (List Char × PyRandom) :=
    match cfg.initial_phrase with
    | some p => if p = [] then random_string cfg.characters pl r0 else some (p, r0)
    | none => random_string cfg.characters pl r0
  match start with
  | none => none
  | some (p, r1) =>
    match calcFitness F cfg.target_phrase p with
    | none => none
    | some q =>
      some { target_phrase := cfg.target_phrase, phrase_length := pl,
             characters := cfg.characters, num_children := cfg.num_children,
             mutate_chance := cfg.mutate_chance, rotate_chance := cfg.rotate_chance,
             rotate_bound := cfg.rotate_bound, sync_rotate := cfg.sync_rotate,
             rand := r1, generation := 0, best_candidate := p, current_fitness := q }

/-! ## The stochastic operators, lines 167–200 -/

/-- Lines 167–168: `self.rand.random() < p`. -/
def flip (p : ℚ) (r : PyRandom) : Bool × PyRandom :=
  let u := r.rnd
  (u.1 < p, u.2)

/-- Lines 170–175: replace the letter by `rand.choice(self.characters)` with
probability `mutate_chance` (the flip always consumes one draw). -/
def mutate_letter_maybe (σ : SimState) (c : Char) (r : PyRandom) :
    Option (Char × PyRandom) :=
  let b := flip σ.mutate_chance r
  if b.1 then b.2.choice σ.characters else some (c, b.2)

/-- `collections.deque(source); d.rotate(amount)` (lines 186–188): a circular
shift moving every element `amount` positions to the right (negative =
left); a no-op on the empty sequence. -/
def dequeRotate (l : List Char) (amount : Int) : List Char :=
  if l.length = 0 then l
  else
    let m := (amount % (l.length : Int)).toNat
    l.drop (l.length - m) ++ l.take (l.length - m)

/-- Lines 183–189: `bound = min(self.rotate_bound, randrange(phrase_length))`,
`amount = randint(-bound, bound)`, then the deque rotation.
`randrange` raises when `phrase_length == 0` and `randint` raises when
`bound < 0` (possible for a negative `rotate_bound`). -/
def rotate (σ : SimState) (source : List Char) (r : PyRandom) :
    Option (List Char × PyRandom) :=
  match r.randrange σ.phrase_length with
  | none => none
  | some (b0, r1) =>
    let bound := min σ.rotate_bound (b0 : Int)
    match r1.randint (-bound) bound with
    | none => none
    | some (amount, r2) => some (dequeRotate source amount, r2)

/-- Lines 177–181: rotate with probability `rotate_chance`, else return the
source unchanged. -/
def rotate_maybe (σ : SimState) (source : List Char) (r : PyRandom) :
    Option (List Char × PyRandom) :=
  let b := flip σ.rotate_chance r
  if b.1 then rotate σ source b.2 else some (source, b.2)

/-- The `''.join(map(self.mutate_letter_maybe, source))` of line 194,
threading the random source left to right. -/
def mutate_chars (σ : SimState) : List Char → PyRandom → Option (List Char × PyRandom)
  | [], r => some ([], r)
  | c :: cs, r =>
    match mutate_letter_maybe σ c r with
    | none => none
    | some (c2, r1) =>
      match mutate_chars σ cs r1 with
      | none => none
      | some (cs2, r2) => some (c2 :: cs2, r2)

/-- Lines 191–194: when rotation is not synchronized, each child first
(maybe) rotates its own copy of the source. -/
def mutate_copy (σ : SimState) (source : List Char) (r : PyRandom) :
    Option (List Char × PyRandom) :=
  match (if σ.sync_rotate then some (source, r) else rotate_maybe σ source r) with
  | none => none
  | some (s1, r1) => mutate_chars σ s1 r1

/-- The `for i in xrange(self.num_children): yield self.mutate_copy(parent)`
loop of lines 199–200, producing the children in order. -/
def childrenAux (σ : SimState) : Nat → List Char → PyRandom →
    Option (List (List Char) × PyRandom)
  | 0, _, r => some ([], r)
  | n + 1, p, r =>
    match mutate_copy σ p r with
    | none => none
    | some (c, r1) =>
      match childrenAux σ n p r1 with
      | none => none
      | some (cs, r2) => some (c :: cs, r2)

/-- Lines 196–200: `children(parent)` — with synchronized rotation the parent
is rotated once before any child is produced; `xrange(num_children)` of a
non-positive count yields nothing.  The generator is consumed in full by each
loop iteration, so it is modelled as the eager list of children plus the
final random-source state. -/
def childrenList (σ : SimState) (parent : List Char) (r : PyRandom) :
    Option (List (List Char) × PyRandom) :=
  match (if σ.sync_rotate then rotate_maybe σ parent r else some (parent, r)) with
  | none => none
  | some (p1, r1) => childrenAux σ σ.num_children.toNat p1 r1

/-! ## One generation of the `generations` loop, lines 202–220 -/

/-- Computing the fitness of each child against the target, in generation
order (the binding of line 208 and the loop of lines 209–212). -/
def scoreAll (F : List Metric) (t : List Char) :
    List (List Char) → Option (List (List Char × ℚ))
  | [] => some []
  | c :: cs =>
    match calcFitness F t c, scoreAll F t cs with
    | some f, some l => some ((c, f) :: l)
    | _, _ => none

/-- Lines 208–212: `candidate = (first_child, fitness)`, then
`if dist > candidate[1]: candidate = (child, dist)` over the remaining
children — a left fold keeping the first strict maximum. -/
def selectBest (l : List (List Char × ℚ)) (first : List Char × ℚ) : List Char × ℚ :=
  l.foldl (fun cand cf => if cf.2 > cand.2 then cf else cand) first

/-- The scored children of the current generation, in generation order. -/
def scoredChildren (F : List Metric) (σ : SimState) :
    Option (List (List Char × ℚ)) :=
  match childrenList σ σ.best_candidate σ.rand with
  | none => none
  | some (cs, _) => scoreAll F σ.target_phrase cs

/-- The `candidate` pair selected by lines 207–212 (none when the generation
raises or yields no child). -/
def selectedPair (F : List Metric) (σ : SimState) : Option (List Char × ℚ) :=
  match scoredChildren F σ with
  | none => none
  | some [] => none
  | some (c :: rest) => some (selectBest rest c)

/-- The observable outcome of one iteration of the `while` loop:
`next` = the loop reached `yield` with the given post-state; `stop` = the
`StopIteration` of `children.next()` on an empty generation escaped,
exhausting the `generations` iterator (Python 2 semantics, no PEP 479);
`err` = some other exception propagated to the caller. -/
inductive StepRes where
  | next (σ : SimState)
  | stop (σ : SimState)
  | err
deriving DecidableEq

/-- The `next` post-state, when there is one. -/
def StepRes.getNext : StepRes → Option SimState
  | .next σ => some σ
  | _ => none

/-- Lines 203–220, one iteration of the loop body: `self.generation += 1`
happens unconditionally (line 206) before the children are drawn; the
selected candidate replaces the best exactly when
`candidate[1] >= self.current_fitness` (line 216); line 215 also computes
`calc_fitness(parent, candidate[0])` for printing, which can itself raise. -/
def stepGen (F : List Metric) (σ : SimState) : StepRes :=
  match childrenList σ σ.best_candidate σ.rand with
  | none => .err
  | some (cs, r2) =>
    match cs with
    | [] => .stop { σ with generation := σ.generation + 1, rand := r2 }
    | c0 :: rest =>
      match calcFitness F σ.target_phrase c0, scoreAll F σ.target_phrase rest with
      | some f0, some scored =>
        let cand := selectBest scored (c0, f0)
        match calcFitness F σ.best_candidate cand.1 with
        | none => .err
        | some _ =>
          if σ.current_fitness ≤ cand.2 then
            .next { σ with generation := σ.generation + 1, rand := r2,
                           best_candidate := cand.1, current_fitness := cand.2 }
          else
            .next { σ with generation := σ.generation + 1, rand := r2 }
      | _, _ => .err

/-- How a (fuel-bounded) run of the `generations` iterator ended:
`finished` = the `while` guard `best_candidate != target_phrase` became
false; `stopped` = the iterator was exhausted by the escaped `StopIteration`
of an empty generation; `errored` = an exception propagated; `fuelOut` = the
bound of the model was reached with the loop still running. -/
inductive RunEnd where
  | finished (σ : SimState)
  | fuelOut (σ : SimState)
  | stopped (σ : SimState)
  | errored
deriving DecidableEq

/-- Lines 202–220: the `generations` loop, producing one record (the state at
the `yield` of line 220) per completed generation, driven for at most `fuel`
iterations. -/
def runGens (F : List Metric) : Nat → SimState → List SimState × RunEnd
  | 0, σ => ([], .fuelOut σ)
  | fuel + 1, σ =>
    if σ.best_candidate = σ.target_phrase then ([], .finished σ)
    else
      match stepGen F σ with
      | .next σ2 =>
        let rest := runGens F fuel σ2
        (σ2 :: rest.1, rest.2)
      | .stop σ2 => ([], .stopped σ2)
      | .err => ([], .errored)

/-- A whole run: construct the simulator from the config, then drive
`generations` (the `main` loop of lines 256–259), returning the initial
state and the per-generation result stream. -/
def runAll (F : List Metric) (fuel : Nat) (cfg : RunConfig) :
    Option (SimState × (List SimState × RunEnd)) :=
  match WeaselInit F cfg with
  | none => none
  | some σ0 => some (σ0, runGens F fuel σ0)

/-! ## Correctness of the Levenshtein dynamic program

The code fills rows indexed by prefixes of `s2`, one row per consumed prefix
of `s1`; the bridge between the row recurrence (which extends both prefixes
at their right ends) and the head-recursive `levSpec` is `levSpec_snoc`. -/

theorem levSpec_nil_left (ys : List Char) : levSpec [] ys = ys.length := by
  simp [levSpec]

theorem levSpec_nil_right (xs : List Char) : levSpec xs [] = xs.length := by
  cases xs <;> simp [levSpec]

set_option maxHeartbeats 1000000 in
/-- The edit-distance recurrence at the right ends of both strings. -/
theorem levSpec_snoc (x y : Char) (u : List Char) :
    ∀ v : List Char,
      levSpec (u ++ [x]) (v ++ [y]) =
        min (levSpec u (v ++ [y]) + 1)
          (min (levSpec (u ++ [x]) v + 1) (levSpec u v + (if x = y then 0 else 1))) := by
  induction u with
  | nil =>
    intro v
    induction v with
    | nil => simp [levSpec]
    | cons w v ihv =>
      simp only [List.nil_append, List.cons_append] at ihv ⊢
      simp only [levSpec, levSpec_nil_right, List.length_append, List.length_cons,
        List.length_nil, List.length_singleton] at ihv ⊢
      omega
  | cons a u ihu =>
    intro v
    induction v with
    | nil =>
      have ihu2 := ihu []
      simp only [List.nil_append, List.cons_append] at ihu2 ⊢
      simp only [levSpec, levSpec_nil_right, List.length_append, List.length_cons,
        List.length_nil, List.length_singleton] at ihu2 ⊢
      omega
    | cons b v ihv =>
      have ihu1 := ihu (b :: v)
      have ihu2 := ihu v
      simp only [List.cons_append] at ihu1 ihu2 ihv ⊢
      simp only [levSpec] at ihu1 ihu2 ihv ⊢
      generalize hc1 : (if x = y then (0:Nat) else 1) = c1 at ihu1 ihu2 ihv ⊢
      generalize hc2 : (if a = b then (0:Nat) else 1) = c2 at ihu1 ihu2 ihv ⊢
      generalize hA1 : levSpec (u ++ [x]) (b :: (v ++ [y])) = A1 at ihu1 ⊢
      generalize hA2 : levSpec u (b :: (v ++ [y])) = A2 at ihu1 ⊢
      generalize hA3 : levSpec (u ++ [x]) (b :: v) = A3 at ihu1 ⊢
      generalize hA4 : levSpec u (b :: v) = A4 at ihu1 ⊢
      generalize hA5 : levSpec (u ++ [x]) (v ++ [y]) = A5 at ihu2 ⊢
      generalize hA6 : levSpec u (v ++ [y]) = A6 at ihu2 ihv ⊢
      generalize hA7 : levSpec (u ++ [x]) v = A7 at ihu2 ihv ⊢
      generalize hA8 : levSpec u v = A8 at ihu2 ihv ⊢
      generalize hA9 : levSpec (a :: (u ++ [x])) (v ++ [y]) = A9 at ihv ⊢
      generalize hA10 : levSpec (a :: u) (v ++ [y]) = A10 at ihv ⊢
      generalize hA11 : levSpec (a :: (u ++ [x])) v = A11 at ihv ⊢
      generalize hA12 : levSpec (a :: u) v = A12 at ihv ⊢
      rw [ihu1, ihv, ihu2]
      simp only [← min_add_add_right]
      apply le_antisymm
      · simp only [le_min_iff, min_le_iff]
        omega
      · simp only [le_min_iff, min_le_iff]
        omega

theorem levSpec_comm (a : List Char) : ∀ b : List Char, levSpec a b = levSpec b a := by
  induction a with
  | nil =>
    intro b
    cases b <;> simp [levSpec]
  | cons x xs iha =>
    intro b
    induction b with
    | nil => simp [levSpec]
    | cons y ys ihb =>
      have h1 := iha (y :: ys)
      have h3 := iha ys
      have hc : (if x = y then (0 : Nat) else 1) = (if y = x then 0 else 1) := by
        by_cases h : x = y
        · simp [h]
        · have h4 : ¬y = x := fun e => h e.symm
          simp [h, h4]
      simp only [levSpec]
      omega

theorem levSpec_self (a : List Char) : levSpec a a = 0 := by
  induction a with
  | nil => simp [levSpec]
  | cons x xs ih =>
    simp only [levSpec]
    split
    all_goals first
    | omega
    | simp_all

theorem levSpec_le_max (a : List Char) : ∀ b : List Char, levSpec a b ≤ max a.length b.length := by
  induction a with
  | nil =>
    intro b
    simp only [levSpec, List.length_nil]
    omega
  | cons x xs iha =>
    intro b
    cases b with
    | nil =>
      simp only [levSpec, List.length_cons, List.length_nil]
      omega
    | cons y ys =>
      have h3 := iha ys
      have hc : (if x = y then (0 : Nat) else 1) ≤ 1 := by
        by_cases h : x = y <;> simp [h]
      simp only [levSpec, List.length_cons]
      omega

/-- The specification row: distances from `p` to every prefix of `q ++ s2`
extending `q`, i.e. the contents of `previous_row` after `p` has been
consumed. -/
def specRowFrom (p : List Char) : List Char → List Char → List Nat
  | q, [] => [levSpec p q]
  | q, c :: rest => levSpec p q :: specRowFrom p (q ++ [c]) rest

/-- `specRowFrom` without its first entry. -/
def specTail (p : List Char) : List Char → List Char → List Nat
  | _, [] => []
  | q, c :: rest => levSpec p (q ++ [c]) :: specTail p (q ++ [c]) rest

theorem specRowFrom_eq_cons (p : List Char) :
    ∀ (s2 q : List Char), specRowFrom p q s2 = levSpec p q :: specTail p q s2
  | [], _ => rfl
  | c :: rest, q => by
    simp only [specRowFrom, specTail]
    rw [specRowFrom_eq_cons p rest (q ++ [c])]

/-- The inner loop turns the row for `p` into the (tail of the) row for
`p ++ [c1]`. -/
theorem rowAux_spec (c1 : Char) (p : List Char) :
    ∀ (s2 q : List Char),
      rowAux c1 s2 (specRowFrom p q s2) (levSpec (p ++ [c1]) q) =
        specTail (p ++ [c1]) q s2
  | [], _ => rfl
  | c :: rest, q => by
    have ih := rowAux_spec c1 p rest (q ++ [c])
    have hsnoc := levSpec_snoc c1 c p q
    simp only [specRowFrom, rowAux, List.tail_cons, List.headD_cons]
    rw [specRowFrom_eq_cons p rest (q ++ [c])] at ih ⊢
    simp only [List.headD_cons]
    rw [← hsnoc]
    simp only [specTail]
    rw [ih]

/-- The outer loop carries the row for the consumed prefix `p` of `s1`. -/
theorem levLoop_spec (s2 : List Char) :
    ∀ (rest p : List Char),
      levLoop rest s2 p.length (specRowFrom p [] s2) = specRowFrom (p ++ rest) [] s2
  | [], p => by simp [levLoop]
  | c1 :: rest, p => by
    have ih := levLoop_spec s2 rest (p ++ [c1])
    have hrow := rowAux_spec c1 p s2 []
    simp only [levLoop]
    rw [show p.length + 1 = levSpec (p ++ [c1]) [] from by
      rw [levSpec_nil_right]; simp]
    rw [hrow, ← specRowFrom_eq_cons]
    rw [show levSpec (p ++ [c1]) [] = (p ++ [c1]).length from by
      rw [levSpec_nil_right]]
    rw [ih, List.append_assoc]
    rfl

theorem specRowFrom_nil (s2 q : List Char) :
    specRowFrom [] q s2 = (List.range (s2.length + 1)).map (fun j => q.length + j) := by
  induction s2 generalizing q with
    | nil => simp [specRowFrom, levSpec_nil_left, List.range_succ]
    | cons c rest ih =>
      simp only [specRowFrom, levSpec_nil_left, List.length_cons]
      rw [List.range_succ_eq_map, List.map_cons, List.map_map]
      rw [ih (q ++ [c])]
      have h1 : (fun j => (q ++ [c]).length + j) = ((fun j => q.length + j) ∘ Nat.succ) := by
        funext j
        simp only [List.length_append, List.length_singleton, Function.comp_apply]
        omega
      rw [h1]
      simp

/-- `previous_row = xrange(len(s2) + 1)` is the row for the empty prefix. -/
theorem range_eq_specRowFrom (s2 : List Char) :
    List.range (s2.length + 1) = specRowFrom [] [] s2 := by
  rw [specRowFrom_nil s2 []]
  simp

theorem specRowFrom_getLastD (p : List Char) :
    ∀ (s2 q : List Char) (d : Nat),
      (specRowFrom p q s2).getLastD d = levSpec p (q ++ s2)
  | [], q, d => by simp [specRowFrom]
  | c :: rest, q, d => by
    have ih := specRowFrom_getLastD p rest (q ++ [c]) (levSpec p q)
    simp only [specRowFrom, List.getLastD_cons]
    rw [ih, List.append_assoc]
    rfl

/-- The code's dynamic program computes the textbook edit distance. -/
theorem levenshteinCore_eq (s1 s2 : List Char) : levenshteinCore s1 s2 = levSpec s1 s2 := by
  unfold levenshteinCore
  by_cases h : s1 = []
  · rw [if_pos h, h, levSpec_nil_left]
  · rw [if_neg h, range_eq_specRowFrom]
    have hl := levLoop_spec s2 s1 []
    simp only [List.length_nil, List.nil_append] at hl
    rw [hl]
    have hg := specRowFrom_getLastD s1 s2 [] 0
    simp only [List.nil_append] at hg
    exact hg

/-- `weasel.py`'s `levenshtein` (argument swap included) equals the textbook
unit-cost edit distance. -/
theorem levenshtein_eq_levSpec (s1 s2 : List Char) : levenshtein s1 s2 = levSpec s1 s2 := by
  unfold levenshtein
  by_cases h : s1.length < s2.length
  · rw [if_pos h, levenshteinCore_eq, levSpec_comm]
  · rw [if_neg h, levenshteinCore_eq]

/-! ## Facts about the fitness metrics -/

/-- On any pair that is not two empty strings, the edit-distance fitness is
exactly `1 - levenshtein(a,b) / max(len(a), len(b))` (the `abs` of
`match_to_ratio` never changes the value because the distance is at most the
longer length). -/
theorem levenshtein_fitness_eq (a b : List Char) (h : max a.length b.length ≠ 0) :
    levenshtein_fitness a b =
      some (1 - (levSpec a b : ℚ) / ((max a.length b.length : Nat) : ℚ)) := by
  unfold levenshtein_fitness match_to_ratio
  rw [if_neg h, levenshtein_eq_levSpec]
  have hM : (0 : ℚ) < ((max a.length b.length : Nat) : ℚ) := by
    exact_mod_cast Nat.pos_of_ne_zero h
  have hdiv : (levSpec a b : ℚ) / ((max a.length b.length : Nat) : ℚ) ≤ 1 := by
    rw [div_le_one hM]
    exact_mod_cast levSpec_le_max a b
  have h1 : (if (true : Bool) then (1 : ℚ) else 0) = 1 := rfl
  rw [h1, abs_sub_comm, abs_of_nonneg (sub_nonneg.mpr hdiv)]

theorem levenshtein_fitness_comm (a b : List Char) :
    levenshtein_fitness a b = levenshtein_fitness b a := by
  by_cases h : max a.length b.length = 0
  · have h2 : max b.length a.length = 0 := by rw [Nat.max_comm]; exact h
    unfold levenshtein_fitness match_to_ratio
    rw [if_pos h, if_pos h2]
  · have h2 : max b.length a.length ≠ 0 := by rw [Nat.max_comm]; exact h
    rw [levenshtein_fitness_eq a b h, levenshtein_fitness_eq b a h2,
      levSpec_comm a b, Nat.max_comm a.length b.length]

/-! ## Length preservation of the operators -/

theorem dequeRotate_length (l : List Char) (k : Int) :
    (dequeRotate l k).length = l.length := by
  unfold dequeRotate
  by_cases h : l.length = 0
  · rw [if_pos h]
  · rw [if_neg h]
    simp only [List.length_append, List.length_drop, List.length_take]
    omega

theorem rotate_length (σ : SimState) (src : List Char) (r : PyRandom)
    (out : List Char) (r2 : PyRandom) (h : rotate σ src r = some (out, r2)) :
    out.length = src.length := by
  unfold rotate at h
  cases h0 : PyRandom.randrange r σ.phrase_length with
  | none => simp [h0] at h
  | some v =>
    obtain ⟨b0, r1⟩ := v
    simp only [h0] at h
    cases h1 : PyRandom.randint r1 (-min σ.rotate_bound (b0 : Int)) (min σ.rotate_bound (b0 : Int)) with
    | none => simp [h1] at h
    | some w =>
      obtain ⟨amount, r3⟩ := w
      simp only [h1, Option.some.injEq, Prod.mk.injEq] at h
      obtain ⟨h2, _⟩ := h
      rw [← h2, dequeRotate_length]

theorem rotate_maybe_length (σ : SimState) (src : List Char) (r : PyRandom)
    (out : List Char) (r2 : PyRandom) (h : rotate_maybe σ src r = some (out, r2)) :
    out.length = src.length := by
  unfold rotate_maybe at h
  by_cases hb : (flip σ.rotate_chance r).1
  · rw [if_pos hb] at h
    exact rotate_length σ src _ out r2 h
  · rw [if_neg hb] at h
    simp only [Option.some.injEq, Prod.mk.injEq] at h
    rw [← h.1]

theorem mutate_chars_length (σ : SimState) :
    ∀ (l : List Char) (r : PyRandom) (out : List Char) (r2 : PyRandom),
      mutate_chars σ l r = some (out, r2) → out.length = l.length := by
  intro l
  induction l with
  | nil =>
    intro r out r2 h
    simp only [mutate_chars, Option.some.injEq, Prod.mk.injEq] at h
    rw [← h.1]
  | cons c cs ih =>
    intro r out r2 h
    simp only [mutate_chars] at h
    cases hm : mutate_letter_maybe σ c r with
    | none => simp [hm] at h
    | some v =>
      obtain ⟨c2, r1⟩ := v
      simp only [hm] at h
      cases hc : mutate_chars σ cs r1 with
      | none => simp [hc] at h
      | some w =>
        obtain ⟨cs2, r3⟩ := w
        simp only [hc, Option.some.injEq, Prod.mk.injEq] at h
        obtain ⟨h1, _⟩ := h
        rw [← h1]
        simp only [List.length_cons, ih r1 cs2 r3 hc]

theorem mutate_copy_length (σ : SimState) (src : List Char) (r : PyRandom)
    (out : List Char) (r2 : PyRandom) (h : mutate_copy σ src r = some (out, r2)) :
    out.length = src.length := by
  unfold mutate_copy at h
  by_cases hs : σ.sync_rotate
  · rw [if_pos hs] at h
    exact mutate_chars_length σ src r out r2 h
  · rw [if_neg hs] at h
    cases hr : rotate_maybe σ src r with
    | none => simp [hr] at h
    | some v =>
      obtain ⟨s1, r1⟩ := v
      simp only [hr] at h
      rw [mutate_chars_length σ s1 r1 out r2 h]
      exact rotate_maybe_length σ src r s1 r1 hr

theorem childrenAux_elim (σ : SimState) :
    ∀ (n : Nat) (p : List Char) (r : PyRandom) (cs : List (List Char)) (r2 : PyRandom),
      childrenAux σ n p r = some (cs, r2) →
        cs.length = n ∧ ∀ c ∈ cs, c.length = p.length := by
  intro n
  induction n with
  | zero =>
    intro p r cs r2 h
    simp only [childrenAux, Option.some.injEq, Prod.mk.injEq] at h
    rw [← h.1]
    simp
  | succ m ih =>
    intro p r cs r2 h
    simp only [childrenAux] at h
    cases hm : mutate_copy σ p r with
    | none => simp [hm] at h
    | some v =>
      obtain ⟨c, r1⟩ := v
      simp only [hm] at h
      cases hc : childrenAux σ m p r1 with
      | none => simp [hc] at h
      | some w =>
        obtain ⟨cs1, r3⟩ := w
        simp only [hc, Option.some.injEq, Prod.mk.injEq] at h
        obtain ⟨h1, _⟩ := h
        obtain ⟨hl, hmem⟩ := ih p r1 cs1 r3 hc
        rw [← h1]
        constructor
        · simp [hl]
        · intro d hd
          rcases List.mem_cons.mp hd with h2 | h2
          · rw [h2]
            exact mutate_copy_length σ p r c r1 hm
          · exact hmem d h2

/-- Every child produced by `children(parent)` has the parent's length, and
there are exactly `max(num_children, 0)` of them. -/
theorem childrenList_elim (σ : SimState) (parent : List Char) (r : PyRandom)
    (cs : List (List Char)) (r2 : PyRandom)
    (h : childrenList σ parent r = some (cs, r2)) :
    cs.length = σ.num_children.toNat ∧ ∀ c ∈ cs, c.length = parent.length := by
  unfold childrenList at h
  by_cases hs : σ.sync_rotate
  · rw [if_pos hs] at h
    cases hr : rotate_maybe σ parent r with
    | none => simp [hr] at h
    | some v =>
      obtain ⟨p1, r1⟩ := v
      simp only [hr] at h
      obtain ⟨hl, hmem⟩ := childrenAux_elim σ σ.num_children.toNat p1 r1 cs r2 h
      refine ⟨hl, fun c hc => ?_⟩
      rw [hmem c hc]
      exact rotate_maybe_length σ parent r p1 r1 hr
  · rw [if_neg hs] at h
    exact childrenAux_elim σ σ.num_children.toNat parent r cs r2 h

/-! ## The selection fold of lines 208–212 -/

theorem selectBest_cons (x : List Char × ℚ) (l : List (List Char × ℚ))
    (f : List Char × ℚ) :
    selectBest (x :: l) f = selectBest l (if x.2 > f.2 then x else f) := rfl

theorem selectBest_mem :
    ∀ (l : List (List Char × ℚ)) (f : List Char × ℚ), selectBest l f ∈ f :: l := by
  intro l
  induction l with
  | nil =>
    intro f
    simp [selectBest]
  | cons x l ih =>
    intro f
    rw [selectBest_cons]
    have h := ih (if x.2 > f.2 then x else f)
    rw [List.mem_cons] at h
    rcases h with h1 | h1
    · rw [h1]
      by_cases hx : x.2 > f.2
      · rw [if_pos hx]
        exact List.mem_cons_of_mem f (List.mem_cons_self x l)
      · rw [if_neg hx]
        exact List.mem_cons_self f (x :: l)
    · exact List.mem_cons_of_mem f (List.mem_cons_of_mem x h1)

theorem selectBest_fst_mem (scored : List (List Char × ℚ)) (c0 : List Char) (f0 : ℚ) :
    (selectBest scored (c0, f0)).1 ∈ ((c0, f0) :: scored).map Prod.fst :=
  List.mem_map_of_mem Prod.fst (selectBest_mem scored (c0, f0))

/-- The fold of lines 208–212 returns exactly the first element of the
generation (in order) whose fitness is greater than or equal to every
element's fitness: the strictly-highest-fitness child, ties broken by first
encountered. -/
theorem selectBest_find (l : List (List Char × ℚ)) (f : List Char × ℚ) :
    (f :: l).find? (fun c => (f :: l).all (fun d => decide (d.2 ≤ c.2))) =
      some (selectBest l f) := by
  induction l generalizing f with
  | nil => simp [selectBest, List.find?]
  | cons x l ih =>
    rw [selectBest_cons]
    by_cases hx : x.2 > f.2
    · rw [if_pos hx]
      have hpred : ∀ c : List Char × ℚ,
          ((f :: x :: l).all (fun d => decide (d.2 ≤ c.2))) =
            ((x :: l).all (fun d => decide (d.2 ≤ c.2))) := by
        intro c
        simp only [List.all_cons]
        by_cases h1 : x.2 ≤ c.2
        · have h2 : f.2 ≤ c.2 := le_trans (le_of_lt hx) h1
          simp [h1, h2]
        · simp [h1]
      rw [show (fun c : List Char × ℚ => (f :: x :: l).all (fun d => decide (d.2 ≤ c.2))) =
            (fun c : List Char × ℚ => (x :: l).all (fun d => decide (d.2 ≤ c.2))) from
          funext hpred]
      have hffalse : ((x :: l).all (fun d => decide (d.2 ≤ f.2))) = false := by
        simp only [List.all_cons]
        have h3 : ¬x.2 ≤ f.2 := not_le_of_lt hx
        simp [h3]
      rw [@List.find?_cons_of_neg _
        (fun c : List Char × ℚ => (x :: l).all (fun d => decide (d.2 ≤ c.2)))
        f (x :: l) (by simp [hffalse])]
      exact ih x
    · rw [if_neg hx]
      have hxle : x.2 ≤ f.2 := le_of_not_lt hx
      have hpred : ∀ c : List Char × ℚ,
          ((f :: x :: l).all (fun d => decide (d.2 ≤ c.2))) =
            ((f :: l).all (fun d => decide (d.2 ≤ c.2))) := by
        intro c
        simp only [List.all_cons]
        by_cases h1 : f.2 ≤ c.2
        · have h2 : x.2 ≤ c.2 := le_trans hxle h1
          simp [h1, h2]
        · simp [h1]
      rw [show (fun c : List Char × ℚ => (f :: x :: l).all (fun d => decide (d.2 ≤ c.2))) =
            (fun c : List Char × ℚ => (f :: l).all (fun d => decide (d.2 ≤ c.2))) from
          funext hpred]
      have hih := ih f
      by_cases hpf : ((f :: l).all (fun d => decide (d.2 ≤ f.2))) = true
      · rw [@List.find?_cons_of_pos _
          (fun c : List Char × ℚ => (f :: l).all (fun d => decide (d.2 ≤ c.2)))
          f (x :: l) hpf]
        rw [@List.find?_cons_of_pos _
          (fun c : List Char × ℚ => (f :: l).all (fun d => decide (d.2 ≤ c.2)))
          f l hpf] at hih
        exact hih
      · have hqx : ((f :: l).all (fun d => decide (d.2 ≤ x.2))) = false := by
          rcases Bool.eq_false_or_eq_true ((f :: l).all (fun d => decide (d.2 ≤ x.2))) with hb | hb
          · exfalso
            rw [List.all_eq_true] at hb
            have hfx : f.2 ≤ x.2 :=
              of_decide_eq_true (hb f (List.mem_cons_self f l))
            have hfeq : f.2 = x.2 := le_antisymm hfx hxle
            apply hpf
            rw [List.all_eq_true]
            intro d hd
            have hdx : d.2 ≤ x.2 := of_decide_eq_true (hb d hd)
            exact decide_eq_true (le_trans hdx (le_of_eq hfeq.symm))
          · exact hb
        rw [@List.find?_cons_of_neg _
          (fun c : List Char × ℚ => (f :: l).all (fun d => decide (d.2 ≤ c.2)))
          f (x :: l) hpf]
        rw [@List.find?_cons_of_neg _
          (fun c : List Char × ℚ => (f :: l).all (fun d => decide (d.2 ≤ c.2)))
          x l (by simp [hqx])]
        rw [@List.find?_cons_of_neg _
          (fun c : List Char × ℚ => (f :: l).all (fun d => decide (d.2 ≤ c.2)))
          f l hpf] at hih
        exact hih

/-! ## Scoring and one step of the loop -/

theorem scoreAll_elim (F : List Metric) (t : List Char) :
    ∀ (cs : List (List Char)) (l : List (List Char × ℚ)),
      scoreAll F t cs = some l → l.map Prod.fst = cs := by
  intro cs
  induction cs with
  | nil =>
    intro l h
    simp only [scoreAll, Option.some.injEq] at h
    rw [← h]
    rfl
  | cons c cs ih =>
    intro l h
    simp only [scoreAll] at h
    cases hc : calcFitness F t c with
    | none => simp [hc] at h
    | some f =>
      simp only [hc] at h
      cases hs : scoreAll F t cs with
      | none => simp [hs] at h
      | some l1 =>
        simp only [hs, Option.some.injEq] at h
        rw [← h]
        simp [ih l1 hs]

/-- Anatomy of a loop iteration that reaches `yield`: the children exist and
are nonempty, every child was scored, the selected pair is the fold of the
scores, and the post-state is the conditional update of line 216. -/
theorem stepGen_next_elim (F : List Metric) (σ σ2 : SimState)
    (h : stepGen F σ = StepRes.next σ2) :
    ∃ (r2 : PyRandom) (c0 : List Char) (rest : List (List Char)) (f0 : ℚ)
      (scored : List (List Char × ℚ)),
      childrenList σ σ.best_candidate σ.rand = some (c0 :: rest, r2) ∧
      calcFitness F σ.target_phrase c0 = some f0 ∧
      scoreAll F σ.target_phrase rest = some scored ∧
      selectedPair F σ = some (selectBest scored (c0, f0)) ∧
      σ2 = (if σ.current_fitness ≤ (selectBest scored (c0, f0)).2 then
              { σ with generation := σ.generation + 1, rand := r2,
                       best_candidate := (selectBest scored (c0, f0)).1,
                       current_fitness := (selectBest scored (c0, f0)).2 }
            else { σ with generation := σ.generation + 1, rand := r2 }) := by
  unfold stepGen at h
  cases hch : childrenList σ σ.best_candidate σ.rand with
  | none => simp [hch] at h
  | some v =>
    obtain ⟨cs, r2⟩ := v
    simp only [hch] at h
    cases cs with
    | nil => simp at h
    | cons c0 rest =>
      cases hc : calcFitness F σ.target_phrase c0 with
      | none => simp [hc] at h
      | some f0 =>
        simp only [hc] at h
        cases hs : scoreAll F σ.target_phrase rest with
        | none => simp [hs] at h
        | some scored =>
          simp only [hs] at h
          cases hd : calcFitness F σ.best_candidate (selectBest scored (c0, f0)).1 with
          | none => simp [hd] at h
          | some dparent =>
            simp only [hd] at h
            refine ⟨r2, c0, rest, f0, scored, rfl, hc, hs, ?_, ?_⟩
            · simp [selectedPair, scoredChildren, scoreAll, hch, hc, hs]
            · by_cases hcmp : σ.current_fitness ≤ (selectBest scored (c0, f0)).2
              · rw [if_pos hcmp] at h ⊢
                injection h with h2
                exact h2.symm
              · rw [if_neg hcmp] at h ⊢
                injection h with h2
                exact h2.symm

/-- Frame facts about a completed generation: the configuration fields are
untouched, the generation counter increments (unconditionally), the fitness
never decreases, and the best candidate keeps its length. -/
theorem stepGen_next_fields (F : List Metric) (σ σ2 : SimState)
    (h : stepGen F σ = StepRes.next σ2) :
    σ2.generation = σ.generation + 1 ∧
    σ2.target_phrase = σ.target_phrase ∧
    σ2.phrase_length = σ.phrase_length ∧
    σ2.characters = σ.characters ∧
    σ2.num_children = σ.num_children ∧
    σ2.mutate_chance = σ.mutate_chance ∧
    σ2.rotate_chance = σ.rotate_chance ∧
    σ2.rotate_bound = σ.rotate_bound ∧
    σ2.sync_rotate = σ.sync_rotate ∧
    σ.current_fitness ≤ σ2.current_fitness ∧
    σ2.best_candidate.length = σ.best_candidate.length := by
  obtain ⟨r2, c0, rest, f0, scored, hch, hc, hs, hsel, hσ2⟩ := stepGen_next_elim F σ σ2 h
  have hfull : scoreAll F σ.target_phrase (c0 :: rest) = some ((c0, f0) :: scored) := by
    simp [scoreAll, hc, hs]
  have hmap := scoreAll_elim F σ.target_phrase (c0 :: rest) _ hfull
  have hmem1 : (selectBest scored (c0, f0)).1 ∈ c0 :: rest := by
    rw [← hmap]
    exact selectBest_fst_mem scored c0 f0
  have hlen : (selectBest scored (c0, f0)).1.length = σ.best_candidate.length :=
    (childrenList_elim σ σ.best_candidate σ.rand (c0 :: rest) r2 hch).2 _ hmem1
  subst hσ2
  by_cases hcmp : σ.current_fitness ≤ (selectBest scored (c0, f0)).2
  · rw [if_pos hcmp]
    exact ⟨rfl, rfl, rfl, rfl, rfl, rfl, rfl, rfl, rfl, hcmp, hlen⟩
  · rw [if_neg hcmp]
    exact ⟨rfl, rfl, rfl, rfl, rfl, rfl, rfl, rfl, rfl, le_refl _, rfl⟩

/-- Line 216 exactly: the selected child is adopted (with its fitness) iff
its fitness is at least the current best's; otherwise best candidate and
fitness are untouched. -/
theorem stepGen_next_adoption (F : List Metric) (σ σ2 : SimState)
    (p : List Char) (f : ℚ)
    (hsel : selectedPair F σ = some (p, f))
    (h : stepGen F σ = StepRes.next σ2) :
    (σ.current_fitness ≤ f → σ2.best_candidate = p ∧ σ2.current_fitness = f) ∧
    (¬σ.current_fitness ≤ f → σ2.best_candidate = σ.best_candidate ∧
      σ2.current_fitness = σ.current_fitness) := by
  obtain ⟨r2, c0, rest, f0, scored, hch, hc, hs, hsel2, hσ2⟩ := stepGen_next_elim F σ σ2 h
  rw [hsel] at hsel2
  have hpf : (p, f) = selectBest scored (c0, f0) := by
    simpa using hsel2
  have hp : p = (selectBest scored (c0, f0)).1 := by rw [← hpf]
  have hf : f = (selectBest scored (c0, f0)).2 := by rw [← hpf]
  subst hσ2
  rw [← hf, ← hp]
  constructor
  · intro hle
    rw [if_pos hle]
    exact ⟨rfl, rfl⟩
  · intro hnle
    rw [if_neg hnle]
    exact ⟨rfl, rfl⟩

/-- A loop iteration can only end in the escaped `StopIteration` when the
configured population size is not positive. -/
theorem stepGen_stop_num (F : List Metric) (σ σ2 : SimState)
    (h : stepGen F σ = StepRes.stop σ2) : σ.num_children.toNat = 0 := by
  unfold stepGen at h
  cases hch : childrenList σ σ.best_candidate σ.rand with
  | none => simp [hch] at h
  | some v =>
    obtain ⟨cs, r2⟩ := v
    simp only [hch] at h
    cases cs with
    | nil =>
      have hl := (childrenList_elim σ σ.best_candidate σ.rand [] r2 hch).1
      simpa using hl.symm
    | cons c0 rest =>
      cases hc : calcFitness F σ.target_phrase c0 with
      | none => simp [hc] at h
      | some f0 =>
        simp only [hc] at h
        cases hs : scoreAll F σ.target_phrase rest with
        | none => simp [hs] at h
        | some scored =>
          simp only [hs] at h
          cases hd : calcFitness F σ.best_candidate (selectBest scored (c0, f0)).1 with
          | none => simp [hd] at h
          | some dparent =>
            simp only [hd] at h
            by_cases hcmp : σ.current_fitness ≤ (selectBest scored (c0, f0)).2
            · rw [if_pos hcmp] at h
              exact absurd h (by simp)
            · rw [if_neg hcmp] at h
              exact absurd h (by simp)

/-! ## Construction and whole-run facts -/

theorem random_string_length (chars : List Char) :
    ∀ (n : Nat) (r : PyRandom) (s : List Char) (r2 : PyRandom),
      random_string chars n r = some (s, r2) → s.length = n := by
  intro n
  induction n with
  | zero =>
    intro r s r2 h
    simp only [random_string, Option.some.injEq, Prod.mk.injEq] at h
    rw [← h.1]
    rfl
  | succ m ih =>
    intro r s r2 h
    simp only [random_string] at h
    cases hc : PyRandom.choice r chars with
    | none => simp [hc] at h
    | some v =>
      obtain ⟨c, r1⟩ := v
      simp only [hc] at h
      cases hs : random_string chars m r1 with
      | none => simp [hs] at h
      | some w =>
        obtain ⟨s1, r3⟩ := w
        simp only [hs, Option.some.injEq, Prod.mk.injEq] at h
        rw [← h.1]
        simp [ih r1 s1 r3 hs]

/-- Anatomy of a successful construction (`__init__`, lines 126–145): the
state starts at generation 0 with the initial phrase as best candidate and
its fitness; when the initial phrase was not supplied (or was the falsy empty
string), the random initial string has the target's length.  Note that no
configuration field is validated. -/
theorem WeaselInit_elim (F : List Metric) (cfg : RunConfig) (σ0 : SimState)
    (h : WeaselInit F cfg = some σ0) :
    ∃ (p : List Char) (r1 : PyRandom) (q : ℚ),
      calcFitness F cfg.target_phrase p = some q ∧
      σ0 = { target_phrase := cfg.target_phrase,
             phrase_length := cfg.target_phrase.length,
             characters := cfg.characters, num_children := cfg.num_children,
             mutate_chance := cfg.mutate_chance, rotate_chance := cfg.rotate_chance,
             rotate_bound := cfg.rotate_bound, sync_rotate := cfg.sync_rotate,
             rand := r1, generation := 0, best_candidate := p,
             current_fitness := q } ∧
      ((cfg.initial_phrase = none ∨ cfg.initial_phrase = some []) →
        p.length = cfg.target_phrase.length) := by
  cases hip : cfg.initial_phrase with
  | none =>
    simp only [WeaselInit, hip] at h
    cases hrs : random_string cfg.characters cfg.target_phrase.length (pyRandomInit cfg.seed) with
    | none => simp [hrs] at h
    | some v =>
      obtain ⟨p, r1⟩ := v
      simp only [hrs] at h
      cases hcf : calcFitness F cfg.target_phrase p with
      | none => simp [hcf] at h
      | some q =>
        simp only [hcf, Option.some.injEq] at h
        exact ⟨p, r1, q, hcf, h.symm,
          fun _ => random_string_length cfg.characters _ _ _ _ hrs⟩
  | some ip =>
    simp only [WeaselInit, hip] at h
    by_cases hem : ip = []
    · rw [if_pos hem] at h
      cases hrs : random_string cfg.characters cfg.target_phrase.length (pyRandomInit cfg.seed) with
      | none => simp [hrs] at h
      | some v =>
        obtain ⟨p, r1⟩ := v
        simp only [hrs] at h
        cases hcf : calcFitness F cfg.target_phrase p with
        | none => simp [hcf] at h
        | some q =>
          simp only [hcf, Option.some.injEq] at h
          exact ⟨p, r1, q, hcf, h.symm,
            fun _ => random_string_length cfg.characters _ _ _ _ hrs⟩
    · rw [if_neg hem] at h
      cases hcf : calcFitness F cfg.target_phrase ip with
      | none => simp [hcf] at h
      | some q =>
        simp only [hcf, Option.some.injEq] at h
        refine ⟨ip, pyRandomInit cfg.seed, q, hcf, h.symm, fun hcon => ?_⟩
        rcases hcon with h2 | h2
        · simp at h2
        · exact absurd (by simpa using h2) hem

theorem runGens_finished (F : List Metric) :
    ∀ (fuel : Nat) (σ σf : SimState),
      (runGens F fuel σ).2 = RunEnd.finished σf →
        σf.best_candidate = σf.target_phrase := by
  intro fuel
  induction fuel with
  | zero =>
    intro σ σf h
    simp [runGens] at h
  | succ n ih =>
    intro σ σf h
    simp only [runGens] at h
    by_cases hg : σ.best_candidate = σ.target_phrase
    · rw [if_pos hg] at h
      simp only [RunEnd.finished.injEq] at h
      rw [← h]
      exact hg
    · rw [if_neg hg] at h
      cases hstep : stepGen F σ with
      | next σ2 =>
        simp only [hstep] at h
        exact ih σ2 σf (by simpa using h)
      | stop σ2 => simp [hstep] at h
      | err => simp [hstep] at h

theorem runGens_no_stop (F : List Metric) :
    ∀ (fuel : Nat) (σ : SimState), 1 ≤ σ.num_children →
      ∀ σf, (runGens F fuel σ).2 ≠ RunEnd.stopped σf := by
  intro fuel
  induction fuel with
  | zero =>
    intro σ h σf hcon
    simp [runGens] at hcon
  | succ n ih =>
    intro σ h σf hcon
    simp only [runGens] at hcon
    by_cases hg : σ.best_candidate = σ.target_phrase
    · rw [if_pos hg] at hcon
      simp at hcon
    · rw [if_neg hg] at hcon
      cases hstep : stepGen F σ with
      | next σ2 =>
        simp only [hstep] at hcon
        have hnum : σ2.num_children = σ.num_children :=
          (stepGen_next_fields F σ σ2 hstep).2.2.2.2.1
        exact ih σ2 (by rw [hnum]; exact h) σf (by simpa using hcon)
      | stop σ2 =>
        have h0 := stepGen_stop_num F σ σ2 hstep
        omega
      | err =>
        simp [hstep] at hcon

theorem runGens_immediate (F : List Metric) (fuel : Nat) (σ : SimState)
    (h : σ.best_candidate = σ.target_phrase) :
    runGens F (fuel + 1) σ = ([], RunEnd.finished σ) := by
  simp [runGens, h]

/-- Along every run, the recorded fitness values form a non-decreasing
chain starting from the initial state. -/
theorem runGens_chain (F : List Metric) :
    ∀ (fuel : Nat) (σ : SimState),
      List.Chain' (fun a b => a.current_fitness ≤ b.current_fitness)
        (σ :: (runGens F fuel σ).1) := by
  intro fuel
  induction fuel with
  | zero =>
    intro σ
    simp [runGens]
  | succ n ih =>
    intro σ
    simp only [runGens]
    by_cases hg : σ.best_candidate = σ.target_phrase
    · rw [if_pos hg]
      simp
    · rw [if_neg hg]
      cases hstep : stepGen F σ with
      | next σ2 =>
        refine List.Chain'.cons ?_ (ih σ2)
        exact (stepGen_next_fields F σ σ2 hstep).2.2.2.2.2.2.2.2.2.1
      | stop σ2 => simp
      | err => simp

/-- Every recorded state of a run keeps the initial best candidate's
length. -/
theorem runGens_best_length (F : List Metric) :
    ∀ (fuel : Nat) (σ τ : SimState), τ ∈ (runGens F fuel σ).1 →
      τ.best_candidate.length = σ.best_candidate.length := by
  intro fuel
  induction fuel with
  | zero =>
    intro σ τ h
    simp [runGens] at h
  | succ n ih =>
    intro σ τ h
    simp only [runGens] at h
    by_cases hg : σ.best_candidate = σ.target_phrase
    · rw [if_pos hg] at h
      simp at h
    · rw [if_neg hg] at h
      cases hstep : stepGen F σ with
      | next σ2 =>
        simp only [hstep] at h
        have hlen : σ2.best_candidate.length = σ.best_candidate.length :=
          (stepGen_next_fields F σ σ2 hstep).2.2.2.2.2.2.2.2.2.2
        rcases List.mem_cons.mp (by simpa using h) with h2 | h2
        · rw [h2, hlen]
        · rw [ih σ2 τ h2, hlen]
      | stop σ2 => simp [hstep] at h
      | err => simp [hstep] at h

/-! ## The claims -/

/-! ### C1 — termination of the `generations` loop -/

def cfgC1 : RunConfig :=
  { target_phrase := ['A', 'B'], seed := 7, characters := ['A', 'B'],
    num_children := 0, mutate_chance := 0, initial_phrase := some ['B', 'B'],
    rotate_chance := 0, rotate_bound := 5, sync_rotate := false }

def σC1 : SimState :=
  { target_phrase := ['A', 'B'], phrase_length := 2, characters := ['A', 'B'],
    num_children := 0, mutate_chance := 0, rotate_chance := 0, rotate_bound := 5,
    sync_rotate := false, rand := pyRandomInit 7, generation := 0,
    best_candidate := ['B', 'B'], current_fitness := 1 / 2 }

def σC1stop : SimState := { σC1 with generation := 1 }

unseal Rat.mul Rat.inv Rat.add Rat.sub in
/-- C1 counterexample: with population size 0 the first `children.next()`
raises `StopIteration` inside the generator, which (Python 2) cleanly
exhausts the `generations` iterator even though the best candidate does not
equal the target — refuting "exhausted iff best candidate == target" for
every run. -/
theorem generations_pop_zero_exhausts :
    WeaselInit [overlap_fitness] cfgC1 = some σC1 ∧
    runGens [overlap_fitness] 3 σC1 = ([], RunEnd.stopped σC1stop) ∧
    σC1stop.best_candidate ≠ σC1stop.target_phrase := by
  refine ⟨by decide, by decide, by decide⟩

/-- C1 (amended): provided the population size is at least 1, the loop runs
while the best candidate differs from the target and the iterator is
exhausted exactly when the best candidate equals the target string — never
via `StopIteration`, and never merely because fitness reached 1.0 (the guard
of line 203 compares strings, not fitness). -/
theorem generations_exhaust_iff_target (F : List Metric) (fuel : Nat)
    (σ : SimState) (h : 1 ≤ σ.num_children) :
    (∀ σf, (runGens F fuel σ).2 = RunEnd.finished σf →
        σf.best_candidate = σf.target_phrase) ∧
    (∀ σf, (runGens F fuel σ).2 ≠ RunEnd.stopped σf) ∧
    (σ.best_candidate = σ.target_phrase →
      (runGens F fuel σ).1 = [] ∧
      (0 < fuel → runGens F fuel σ = ([], RunEnd.finished σ))) := by
  refine ⟨fun σf => runGens_finished F fuel σ σf,
    runGens_no_stop F fuel σ h, fun ht => ⟨?_, fun hf => ?_⟩⟩
  · cases fuel with
    | zero => simp [runGens]
    | succ n => rw [runGens_immediate F n σ ht]
  · cases fuel with
    | zero => omega
    | succ n => exact runGens_immediate F n σ ht

def σC1w : SimState :=
  { target_phrase := ['A'], phrase_length := 1, characters := ['A'],
    num_children := 1, mutate_chance := 0, rotate_chance := 0, rotate_bound := 1,
    sync_rotate := false, rand := pyRandomInit 1, generation := 0,
    best_candidate := ['A'], current_fitness := 1 }

unseal Rat.mul Rat.inv Rat.add Rat.sub in
/-- C1 witness: a concrete valid-population run that terminates with the best
candidate equal to the target. -/
theorem generations_exhaust_iff_target_w :
    (runGens [overlap_fitness] 2 σC1w).1 = [] ∧
    runGens [overlap_fitness] 2 σC1w = ([], RunEnd.finished σC1w) := by
  have h := generations_exhaust_iff_target [overlap_fitness] 2 σC1w (by decide)
  exact ⟨(h.2.2 (by decide)).1, (h.2.2 (by decide)).2 (by omega)⟩

/-! ### C2 — non-strict adoption and monotone fitness -/

/-- C2: the selected child is adopted as the new best candidate and fitness
exactly when its fitness is greater than or equal to the current best's
(line 216, non-strict), and consequently the recorded best fitness is
non-decreasing along every run. -/
theorem adoption_and_monotone (F : List Metric) (σ : SimState) :
    (∀ (σ2 : SimState) (p : List Char) (f : ℚ),
        selectedPair F σ = some (p, f) → stepGen F σ = StepRes.next σ2 →
          ((σ2.best_candidate = p ∧ σ2.current_fitness = f) ↔
            σ.current_fitness ≤ f)) ∧
    (∀ fuel : Nat,
      List.Chain' (fun a b => a.current_fitness ≤ b.current_fitness)
        (σ :: (runGens F fuel σ).1)) := by
  constructor
  · intro σ2 p f hsel hstep
    obtain ⟨hpos, hneg⟩ := stepGen_next_adoption F σ σ2 p f hsel hstep
    constructor
    · intro hbf
      by_cases hle : σ.current_fitness ≤ f
      · exact hle
      · obtain ⟨_, hf2⟩ := hneg hle
        rw [hbf.2] at hf2
        exact absurd (le_of_eq hf2.symm) hle
    · intro hle
      exact hpos hle
  · exact fun fuel => runGens_chain F fuel σ

def σC2w : SimState :=
  { target_phrase := ['A', 'A'], phrase_length := 2, characters := ['A'],
    num_children := 1, mutate_chance := 1, rotate_chance := 0, rotate_bound := 2,
    sync_rotate := false, rand := pyRandomInit 2, generation := 0,
    best_candidate := ['B', 'B'], current_fitness := 0 }

def pairC2w : List Char × ℚ := (selectedPair [overlap_fitness] σC2w).getD ([], 0)

def σC2w2 : SimState := ((stepGen [overlap_fitness] σC2w).getNext).getD σC2w

unseal Rat.mul Rat.inv Rat.add Rat.sub in
/-- C2 witness: a concrete generation where the child is adopted, plus the
monotone chain of a concrete run. -/
theorem adoption_and_monotone_w :
    ((σC2w2.best_candidate = pairC2w.1 ∧ σC2w2.current_fitness = pairC2w.2) ↔
      σC2w.current_fitness ≤ pairC2w.2) ∧
    List.Chain' (fun a b => a.current_fitness ≤ b.current_fitness)
      (σC2w :: (runGens [overlap_fitness] 2 σC2w).1) := by
  have h := adoption_and_monotone [overlap_fitness] σC2w
  exact ⟨h.1 σC2w2 pairC2w.1 pairC2w.2 (by decide) (by decide), h.2 2⟩

/-! ### C3 — the edit-distance fitness -/

unseal Rat.mul Rat.inv Rat.add Rat.sub in
/-- C3 counterexample: on two empty strings the edit-distance fitness does
not return 1.0 — `match_to_ratio` divides by `max(len, len) = 0` and raises
`ZeroDivisionError` (modelled by `none`), so "fitness(a,a) == 1.0 for every
string a" fails at `a = ""`. -/
theorem levenshtein_fitness_empty_none : levenshtein_fitness [] [] = none := by
  decide

/-- C3 (amended): for all strings `a`, `b` that are not both empty, the
edit-distance fitness equals `1 - levenshtein(a,b) / max(len(a), len(b))`
with `levenshtein` the unit-cost insert/delete/substitute edit distance;
`fitness(a,a) = 1.0` for every nonempty `a`; and the fitness is symmetric.
(On two empty strings the code raises instead.) -/
theorem levenshtein_fitness_formula (a b : List Char) (h : a ≠ [] ∨ b ≠ []) :
    levenshtein_fitness a b =
        some (1 - (levSpec a b : ℚ) / ((max a.length b.length : Nat) : ℚ)) ∧
      (a ≠ [] → levenshtein_fitness a a = some 1) ∧
      levenshtein_fitness a b = levenshtein_fitness b a := by
  have hmax : max a.length b.length ≠ 0 := by
    rcases h with h1 | h1
    · have := List.length_pos.mpr h1
      omega
    · have := List.length_pos.mpr h1
      omega
  refine ⟨levenshtein_fitness_eq a b hmax, ?_, levenshtein_fitness_comm a b⟩
  intro ha
  have hmax2 : max a.length a.length ≠ 0 := by
    have := List.length_pos.mpr ha
    omega
  rw [levenshtein_fitness_eq a a hmax2, levSpec_self]
  simp

unseal Rat.mul Rat.inv Rat.add Rat.sub in
/-- C3 witness: the formula, self-fitness and symmetry at concrete strings,
and the concrete value 1/2 at distance 1 over maximum length 2. -/
theorem levenshtein_fitness_formula_w :
    (levenshtein_fitness ['A'] ['A', 'B'] =
        some (1 - (levSpec ['A'] ['A', 'B'] : ℚ) /
          ((max (['A'] : List Char).length (['A', 'B'] : List Char).length : Nat) : ℚ)) ∧
      ((['A'] : List Char) ≠ [] → levenshtein_fitness ['A'] ['A'] = some 1) ∧
      levenshtein_fitness ['A'] ['A', 'B'] = levenshtein_fitness ['A', 'B'] ['A']) ∧
    levenshtein_fitness ['A'] ['A', 'B'] = some (1 / 2) :=
  ⟨levenshtein_fitness_formula ['A'] ['A', 'B'] (Or.inl (by decide)), by decide⟩

/-! ### C4 — empty strings crash the metrics -/

unseal Rat.mul Rat.inv Rat.add Rat.sub in
/-- C4 (code bug): applied to two empty strings, the `match_to_ratio`-based
metrics do not return 1.0 — they raise `ZeroDivisionError` (the denominator
`max(len(s1), len(s2))` is 0), contradicting the spec's convention and
`match_to_ratio`'s own docstring ("will be 1.0 if s1 == s2").  Only
`sequence_matcher_fitness` (difflib's `ratio`, which special-cases a zero
combined length) returns 1.0 there. -/
theorem match_to_ratio_empty_crash :
    levenshtein_fitness [] [] = none ∧ overlap_fitness [] [] = none := by
  exact ⟨by decide, by decide⟩

/-! ### C5 — no validation at construction -/

def cfgC5 : RunConfig :=
  { target_phrase := ['A', 'B'], seed := 3, characters := ['X', 'Y'],
    num_children := 0, mutate_chance := 2, initial_phrase := some ['Y', 'X'],
    rotate_chance := -1, rotate_bound := -4, sync_rotate := false }

def σC5 : SimState :=
  { target_phrase := ['A', 'B'], phrase_length := 2, characters := ['X', 'Y'],
    num_children := 0, mutate_chance := 2, rotate_chance := -1, rotate_bound := -4,
    sync_rotate := false, rand := pyRandomInit 3, generation := 0,
    best_candidate := ['Y', 'X'], current_fitness := 0 }

unseal Rat.mul Rat.inv Rat.add Rat.sub in
/-- C5 counterexample: a configuration with population size < 1, mutation
probability > 1, rotation probability < 0 and a target character absent from
the alphabet is accepted silently — construction succeeds, no validation
error is raised. -/
theorem init_accepts_invalid_config :
    cfgC5.num_children < 1 ∧ cfgC5.mutate_chance > 1 ∧ cfgC5.rotate_chance < 0 ∧
    'A' ∈ cfgC5.target_phrase ∧ 'A' ∉ cfgC5.characters ∧
    WeaselInit [overlap_fitness] cfgC5 = some σC5 := by
  refine ⟨by decide, by decide, by decide, by decide, by decide, by decide⟩

/-- C5 (amended): `__init__` performs no validation at all.  Any
configuration with a truthy initial phrase (and metrics that evaluate on it)
constructs successfully regardless of population size, probabilities,
alphabet or target; with an empty alphabet and no initial phrase the
construction fails, but with an `IndexError` escaping `random.choice`, not a
descriptive validation error. -/
theorem init_no_validation :
    (∀ (F : List Metric) (cfg : RunConfig) (p : List Char) (q : ℚ),
        cfg.initial_phrase = some p → p ≠ [] →
        calcFitness F cfg.target_phrase p = some q →
        WeaselInit F cfg = some
          { target_phrase := cfg.target_phrase,
            phrase_length := cfg.target_phrase.length,
            characters := cfg.characters, num_children := cfg.num_children,
            mutate_chance := cfg.mutate_chance, rotate_chance := cfg.rotate_chance,
            rotate_bound := cfg.rotate_bound, sync_rotate := cfg.sync_rotate,
            rand := pyRandomInit cfg.seed, generation := 0, best_candidate := p,
            current_fitness := q }) ∧
    (∀ (F : List Metric) (cfg : RunConfig),
        cfg.initial_phrase = none → cfg.characters = [] →
        cfg.target_phrase ≠ [] → WeaselInit F cfg = none) := by
  constructor
  · intro F cfg p q hip hne hq
    simp [WeaselInit, hip, if_neg hne, hq]
  · intro F cfg hip hch ht
    obtain ⟨n, hn⟩ : ∃ n, cfg.target_phrase.length = n + 1 := by
      cases htp : cfg.target_phrase with
      | nil => exact absurd htp ht
      | cons c cs => exact ⟨cs.length, by simp [htp]⟩
    simp [WeaselInit, hip, hn, random_string, hch, PyRandom.choice]

def cfgC5w : RunConfig :=
  { target_phrase := ['A'], seed := 2, characters := ['A'],
    num_children := -3, mutate_chance := 5, initial_phrase := some ['A'],
    rotate_chance := 0, rotate_bound := 0, sync_rotate := false }

def cfgC5w2 : RunConfig :=
  { target_phrase := ['A'], seed := 2, characters := [],
    num_children := 1, mutate_chance := 0, initial_phrase := none,
    rotate_chance := 0, rotate_bound := 0, sync_rotate := false }

unseal Rat.mul Rat.inv Rat.add Rat.sub in
/-- C5 witness: a negative population size and out-of-range mutation chance
are accepted; an empty alphabet without an initial phrase crashes. -/
theorem init_no_validation_w :
    WeaselInit [overlap_fitness] cfgC5w = some
      { target_phrase := ['A'], phrase_length := 1, characters := ['A'],
        num_children := -3, mutate_chance := 5, rotate_chance := 0,
        rotate_bound := 0, sync_rotate := false, rand := pyRandomInit 2,
        generation := 0, best_candidate := ['A'], current_fitness := 1 } ∧
    WeaselInit [overlap_fitness] cfgC5w2 = none := by
  constructor
  · exact init_no_validation.1 [overlap_fitness] cfgC5w ['A'] 1 rfl (by decide) (by decide)
  · exact init_no_validation.2 [overlap_fitness] cfgC5w2 rfl rfl (by decide)

/-! ### C6 — what a generation mutates -/

def cfgC6 : RunConfig :=
  { target_phrase := ['A', 'A', 'A', 'A'], seed := 5, characters := ['X', 'Y'],
    num_children := 1, mutate_chance := 1, initial_phrase := some ['A', 'A', 'A', 'X'],
    rotate_chance := 0, rotate_bound := 5, sync_rotate := false }

def σC6 : SimState :=
  { target_phrase := ['A', 'A', 'A', 'A'], phrase_length := 4,
    characters := ['X', 'Y'], num_children := 1, mutate_chance := 1,
    rotate_chance := 0, rotate_bound := 5, sync_rotate := false,
    rand := pyRandomInit 5, generation := 0,
    best_candidate := ['A', 'A', 'A', 'X'], current_fitness := 3 / 4 }

unseal Rat.mul Rat.inv Rat.add Rat.sub in
/-- C6 counterexample: a generation whose selected child scores strictly
below the current best (fitness 0 < 3/4) leaves best candidate and fitness
unchanged, but the generation index still changes from 0 to 1 —
`self.generation += 1` (line 206) runs unconditionally, refuting "every
component of that state, including the generation index, is left
unchanged". -/
theorem generation_counter_cex :
    WeaselInit [overlap_fitness] cfgC6 = some σC6 ∧
    (selectedPair [overlap_fitness] σC6).map Prod.snd = some 0 ∧
    (0 : ℚ) < σC6.current_fitness ∧
    (stepGen [overlap_fitness] σC6).getNext.map SimState.generation = some 1 ∧
    (stepGen [overlap_fitness] σC6).getNext.map SimState.best_candidate =
      some σC6.best_candidate ∧
    (stepGen [overlap_fitness] σC6).getNext.map SimState.current_fitness =
      some σC6.current_fitness ∧
    σC6.generation = 0 := by
  refine ⟨by decide, by decide, by decide, by decide, by decide, by decide, by decide⟩

/-- C6 (amended): best candidate and current fitness are mutated only at the
end of a generation and only when the selected child's fitness is at least
the current best's — in a generation scoring strictly below they are left
unchanged — but the generation index increments once per generation
unconditionally (at the start of the loop body, line 206), not only on
adoption. -/
theorem state_update_policy (F : List Metric) (σ σ2 : SimState)
    (p : List Char) (f : ℚ)
    (hsel : selectedPair F σ = some (p, f))
    (hstep : stepGen F σ = StepRes.next σ2) :
    σ2.generation = σ.generation + 1 ∧
    (f < σ.current_fitness →
      σ2.best_candidate = σ.best_candidate ∧
      σ2.current_fitness = σ.current_fitness) ∧
    (σ.current_fitness ≤ f →
      σ2.best_candidate = p ∧ σ2.current_fitness = f) := by
  obtain ⟨hpos, hneg⟩ := stepGen_next_adoption F σ σ2 p f hsel hstep
  exact ⟨(stepGen_next_fields F σ σ2 hstep).1,
    fun hlt => hneg (not_le_of_lt hlt), hpos⟩

def σC62 : SimState := ((stepGen [overlap_fitness] σC6).getNext).getD σC6

def pairC6 : List Char × ℚ := (selectedPair [overlap_fitness] σC6).getD ([], 0)

unseal Rat.mul Rat.inv Rat.add Rat.sub in
/-- C6 witness: the update policy at the concrete non-improving generation
of `σC6`. -/
theorem state_update_policy_w :
    σC62.generation = σC6.generation + 1 ∧
    (pairC6.2 < σC6.current_fitness →
      σC62.best_candidate = σC6.best_candidate ∧
      σC62.current_fitness = σC6.current_fitness) ∧
    (σC6.current_fitness ≤ pairC6.2 →
      σC62.best_candidate = pairC6.1 ∧ σC62.current_fitness = pairC6.2) :=
  state_update_policy [overlap_fitness] σC6 σC62 pairC6.1 pairC6.2
    (by decide) (by decide)

/-! ### C7 — selection of the generation's best child -/

/-- C7: the pair selected by lines 207–212 is exactly the first scored child
(in generation order) whose fitness is greater than or equal to every scored
child's fitness: the strictly-highest-fitness child, with ties broken by
first-encountered order — deterministic given the fixed child order. -/
theorem selection_first_of_max (F : List Metric) (σ : SimState)
    (c : List Char × ℚ) (rest : List (List Char × ℚ))
    (h : scoredChildren F σ = some (c :: rest)) :
    selectedPair F σ =
      (c :: rest).find? (fun x => (c :: rest).all (fun d => decide (d.2 ≤ x.2))) := by
  unfold selectedPair
  rw [h]
  exact (selectBest_find rest c).symm

def σC7 : SimState :=
  { target_phrase := ['A', 'A'], phrase_length := 2, characters := ['X'],
    num_children := 2, mutate_chance := 1, rotate_chance := 0, rotate_bound := 2,
    sync_rotate := false, rand := pyRandomInit 4, generation := 0,
    best_candidate := ['X', 'A'], current_fitness := 1 / 2 }

def scC7 : List (List Char × ℚ) := (scoredChildren [overlap_fitness] σC7).getD []

def cC7 : List Char × ℚ := scC7.headD ([], 0)

def restC7 : List (List Char × ℚ) := scC7.tail

unseal Rat.mul Rat.inv Rat.add Rat.sub in
/-- C7 witness: the selection at a concrete generation with two tied
children (both score 0): the first is kept. -/
theorem selection_first_of_max_w :
    selectedPair [overlap_fitness] σC7 =
      (cC7 :: restC7).find? (fun x => (cC7 :: restC7).all (fun d => decide (d.2 ≤ x.2))) :=
  selection_first_of_max [overlap_fitness] σC7 cC7 restC7 (by decide)

/-! ### C8 — length preservation -/

def cfgC8 : RunConfig :=
  { target_phrase := ['A', 'B'], seed := 6, characters := ['A', 'B', 'X', 'Y', 'Z'],
    num_children := 5, mutate_chance := 1 / 10, initial_phrase := some ['X', 'Y', 'Z'],
    rotate_chance := 0, rotate_bound := 2, sync_rotate := false }

def σC8 : SimState :=
  { target_phrase := ['A', 'B'], phrase_length := 2,
    characters := ['A', 'B', 'X', 'Y', 'Z'], num_children := 5,
    mutate_chance := 1 / 10, rotate_chance := 0, rotate_bound := 2,
    sync_rotate := false, rand := pyRandomInit 6, generation := 0,
    best_candidate := ['X', 'Y', 'Z'], current_fitness := 0 }

unseal Rat.mul Rat.inv Rat.add Rat.sub in
/-- C8 counterexample: an explicitly supplied initial phrase of the wrong
length is accepted unchecked — after construction the best candidate's
length (3) differs from the target's (2), refuting "every candidate has
length equal to the target's length" for supplied initial candidates. -/
theorem initial_length_mismatch :
    WeaselInit [overlap_fitness] cfgC8 = some σC8 ∧
    σC8.best_candidate.length ≠ σC8.target_phrase.length := by
  refine ⟨by decide, by decide⟩

/-- C8 (amended): random initial-string generation, mutation and rotation
are all length-preserving, every generated child has the parent's length,
the best candidate's length is invariant along every run, and a randomly
generated initial candidate has the target's length — but an explicitly
supplied initial phrase is not validated and may have a different length,
which then persists. -/
theorem length_preservation :
    (∀ (chars : List Char) (n : Nat) (r : PyRandom) (s : List Char) (r2 : PyRandom),
        random_string chars n r = some (s, r2) → s.length = n) ∧
    (∀ (σ : SimState) (src : List Char) (r : PyRandom) (out : List Char) (r2 : PyRandom),
        rotate σ src r = some (out, r2) → out.length = src.length) ∧
    (∀ (σ : SimState) (src : List Char) (r : PyRandom) (out : List Char) (r2 : PyRandom),
        mutate_copy σ src r = some (out, r2) → out.length = src.length) ∧
    (∀ (σ : SimState) (parent : List Char) (r : PyRandom)
        (cs : List (List Char)) (r2 : PyRandom),
        childrenList σ parent r = some (cs, r2) → ∀ c ∈ cs, c.length = parent.length) ∧
    (∀ (F : List Metric) (σ σ2 : SimState), stepGen F σ = StepRes.next σ2 →
        σ2.best_candidate.length = σ.best_candidate.length) ∧
    (∀ (F : List Metric) (fuel : Nat) (σ τ : SimState), τ ∈ (runGens F fuel σ).1 →
        τ.best_candidate.length = σ.best_candidate.length) ∧
    (∀ (F : List Metric) (cfg : RunConfig) (σ0 : SimState),
        WeaselInit F cfg = some σ0 → cfg.initial_phrase = none →
        σ0.best_candidate.length = σ0.target_phrase.length) := by
  refine ⟨random_string_length, rotate_length, mutate_copy_length,
    fun σ parent r cs r2 h => (childrenList_elim σ parent r cs r2 h).2,
    fun F σ σ2 h => (stepGen_next_fields F σ σ2 h).2.2.2.2.2.2.2.2.2.2,
    fun F fuel σ τ h => runGens_best_length F fuel σ τ h,
    fun F cfg σ0 h hip => ?_⟩
  obtain ⟨p, r1, q, _, hσ0, hlen⟩ := WeaselInit_elim F cfg σ0 h
  rw [hσ0]
  exact hlen (Or.inl hip)

def cfgC8w : RunConfig :=
  { target_phrase := ['A', 'B'], seed := 1, characters := ['A'],
    num_children := 1, mutate_chance := 0, initial_phrase := none,
    rotate_chance := 0, rotate_bound := 1, sync_rotate := false }

def σC8w : SimState := (WeaselInit [overlap_fitness] cfgC8w).getD σC8

unseal Rat.mul Rat.inv Rat.add Rat.sub in
/-- C8 witness: a concrete randomly generated initial candidate has the
target's length. -/
theorem length_preservation_w :
    σC8w.best_candidate.length = σC8w.target_phrase.length :=
  length_preservation.2.2.2.2.2.2 [overlap_fitness] cfgC8w σC8w (by decide) rfl

/-! ### C9 — determinism -/

/-- C9: two runs constructed from configurations that agree on every field
(target, seed, alphabet, population size, mutation chance, initial phrase,
rotation parameters, mode) and driven with the same metrics produce
identical generation-by-generation result streams: the whole run — initial
state, every recorded state (candidates, fitness values, generation
indices, in order) and the run's end — is a function of the configuration
alone; all stochastic operations draw from the single generator seeded by
`cfg.seed`. -/
theorem run_deterministic (F : List Metric) (fuel : Nat) (c1 c2 : RunConfig)
    (h1 : c1.target_phrase = c2.target_phrase) (h2 : c1.seed = c2.seed)
    (h3 : c1.characters = c2.characters) (h4 : c1.num_children = c2.num_children)
    (h5 : c1.mutate_chance = c2.mutate_chance)
    (h6 : c1.initial_phrase = c2.initial_phrase)
    (h7 : c1.rotate_chance = c2.rotate_chance)
    (h8 : c1.rotate_bound = c2.rotate_bound)
    (h9 : c1.sync_rotate = c2.sync_rotate) :
    runAll F fuel c1 = runAll F fuel c2 := by
  have h : c1 = c2 := by
    cases c1
    cases c2
    simp_all
  rw [h]

def cfgC9a : RunConfig :=
  { target_phrase := ['A', 'B'], seed := 11, characters := ['A', 'B'],
    num_children := 2, mutate_chance := 1 / 4, initial_phrase := none,
    rotate_chance := 1 / 4, rotate_bound := 1, sync_rotate := true }

def cfgC9b : RunConfig :=
  { target_phrase := ['A', 'B'], seed := 11, characters := ['A', 'B'],
    num_children := 2, mutate_chance := 1 / 4, initial_phrase := none,
    rotate_chance := 1 / 4, rotate_bound := 1, sync_rotate := true }

/-- C9 witness: two separately written but identical configurations yield
the same stream. -/
theorem run_deterministic_w :
    runAll [overlap_fitness] 3 cfgC9a = runAll [overlap_fitness] 3 cfgC9b :=
  run_deterministic [overlap_fitness] 3 cfgC9a cfgC9b
    rfl rfl rfl rfl rfl rfl rfl rfl rfl

/-! ### C10 — immediate termination when the initial candidate matches -/

/-- C10: if the constructed state's best candidate (the supplied or randomly
generated initial phrase) already equals the target, the `generations`
iterator terminates immediately with zero records: the loop guard fails on
entry, so no children are ever generated, and the final state is the initial
state itself — generation index 0, best candidate and fitness (and even the
random source) untouched. -/
theorem immediate_termination_on_match (F : List Metric) (cfg : RunConfig)
    (σ0 : SimState) (fuel : Nat) (h : WeaselInit F cfg = some σ0)
    (ht : σ0.best_candidate = σ0.target_phrase) (hf : 0 < fuel) :
    runGens F fuel σ0 = ([], RunEnd.finished σ0) ∧ σ0.generation = 0 := by
  constructor
  · cases fuel with
    | zero => omega
    | succ n => exact runGens_immediate F n σ0 ht
  · obtain ⟨p, r1, q, _, hσ0, _⟩ := WeaselInit_elim F cfg σ0 h
    rw [hσ0]

def cfgC10 : RunConfig :=
  { target_phrase := ['A', 'B'], seed := 8, characters := ['A', 'B'],
    num_children := 3, mutate_chance := 1 / 2, initial_phrase := some ['A', 'B'],
    rotate_chance := 0, rotate_bound := 1, sync_rotate := false }

def σC10 : SimState :=
  { target_phrase := ['A', 'B'], phrase_length := 2, characters := ['A', 'B'],
    num_children := 3, mutate_chance := 1 / 2, rotate_chance := 0,
    rotate_bound := 1, sync_rotate := false, rand := pyRandomInit 8,
    generation := 0, best_candidate := ['A', 'B'], current_fitness := 1 }

unseal Rat.mul Rat.inv Rat.add Rat.sub in
/-- C10 witness: a run whose supplied initial phrase equals the target
produces zero records and finishes in the initial state. -/
theorem immediate_termination_on_match_w :
    runGens [overlap_fitness] 1 σC10 = ([], RunEnd.finished σC10) ∧
    σC10.generation = 0 :=
  immediate_termination_on_match [overlap_fitness] cfgC10 σC10 1
    (by decide) (by decide) (by decide)

end Weasel
